import Mathlib

/-!
Shallow embedding of the token-group wallet engine
(src/tokens/tokengroupwallet.cpp) and proofs about its
identifier derivation, script encoding, balance aggregation,
coin selection and transaction assembly.

Machine integers (CAmount = int64, flag words = uint64) are modelled as
Int and Nat with explicit conversions at the points where the C++ code
casts between them.  Classes declared in headers outside the source file
(CTokenGroupID, CTokenGroupInfo, GroupAuthorityFlags) are modelled from
the specification and from their uses in the source; this is noted on
each such definition.
-/

namespace TokenGroupWallet

/-- Largest value of a signed 64-bit integer; the C++ code uses
std numeric limits of CAmount for saturation and as the initial
best value in NearestGreaterCoin. -/
def INT64MAX : Int := 9223372036854775807

/-- Interpretation of a 64-bit word as a signed 64-bit integer,
modelling the C++ cast (CAmount)x of a uint64 flag word. -/
def toInt64 (x : Nat) : Int :=
  if x < 2 ^ 63 then (x : Int) else (x : Int) - 2 ^ 64

/-- Interpretation of a signed 64-bit integer as its 64-bit word,
modelling the C++ cast (uint64_t)q of a CAmount. -/
def toNat64 (q : Int) : Nat := (q % (2 ^ 64 : Int)).toNat

namespace GroupAuthorityFlags

/-- Modelled from the spec: the capability bitset of AuthorityFlags
(consensus/tokengroups.h is outside src/).  CTRL marks an authority
output; the remaining named capabilities occupy the bits below it,
inside the 16-bit ALL_BITS window that the source masks with. -/
def NONE : Nat := 0

/-- Modelled from the spec: authority marker bit (top bit of the
64-bit amount word, which makes the signed amount negative). -/
def CTRL : Nat := 2 ^ 63

/-- Modelled from the spec: mint capability bit. -/
def MINT : Nat := 2 ^ 62

/-- Modelled from the spec: melt capability bit. -/
def MELT : Nat := 2 ^ 61

/-- Modelled from the spec: child-authority (renewability) bit. -/
def CCHILD : Nat := 2 ^ 60

/-- Modelled from the spec: rescript capability bit. -/
def RESCRIPT : Nat := 2 ^ 59

/-- Modelled from the spec: subgroup-delegation capability bit. -/
def SUBGROUP : Nat := 2 ^ 58

/-- Modelled from the spec: union of every named capability. -/
def ALL : Nat := CTRL ||| MINT ||| MELT ||| CCHILD ||| RESCRIPT ||| SUBGROUP

/-- Modelled from the spec: the 16-bit window reserved for flags at the
top of the amount word; the source masks nonces and renewed authority
amounts with it. -/
def ALL_BITS : Nat := 0xffff <<< 48

end GroupAuthorityFlags

/-- Modelled from the spec: hasCapability(flags, required) is
(flags AND required) == required. -/
def hasCapability (flags needed : Nat) : Bool := flags &&& needed == needed

/-- Modelled from the spec: an asset identifier is an immutable byte
sequence, compared by content (CTokenGroupID of consensus/tokengroups.h
is outside src/).  Empty bytes are the no-asset sentinel NoGroup. -/
structure CTokenGroupID where
  bytes : List Nat
deriving DecidableEq, Repr

/-- Modelled from the spec: the no-asset sentinel has size-0 data
(see the comment at GetTokenGroup in the source). -/
def NoGroup : CTokenGroupID := CTokenGroupID.mk []

/-- Modelled from the spec: a user group is any identifier other than
the no-asset sentinel, that is one with non-empty bytes. -/
def CTokenGroupID.isUserGroup (g : CTokenGroupID) : Bool := !g.bytes.isEmpty

/-- Destination of an output: key hash, script hash, or none
(the boost variant CTxDestination). -/
inductive CTxDestination where
  | CNoDestination : CTxDestination
  | CKeyID : List Nat → CTxDestination
  | CScriptID : List Nat → CTxDestination
deriving DecidableEq, Repr

/-- One element of an output script: a data push of identifier or hash
bytes, a push of a serialized amount (SerializeAmount lives outside
src/, so the pushed amount is kept symbolic), or an opcode. -/
inductive ScriptElem where
  | pushData : List Nat → ScriptElem
  | pushAmount : Int → ScriptElem
  | OP_GROUP : ScriptElem
  | OP_DROP : ScriptElem
  | OP_DUP : ScriptElem
  | OP_HASH160 : ScriptElem
  | OP_EQUALVERIFY : ScriptElem
  | OP_CHECKSIG : ScriptElem
  | OP_EQUAL : ScriptElem
deriving DecidableEq, Repr

/-- Script construction of CGroupScriptVisitor, dispatched through
GetScriptForDestination: a user group gets the tagged prefix
(identifier push, amount push, OP_GROUP, two OP_DROP) before the
standard key-hash or script-hash template; the no-asset sentinel gets
the untagged template; CNoDestination clears the script. -/
def GetScriptForDestination (dest : CTxDestination) (group : CTokenGroupID)
    (quantity : Int) : List ScriptElem :=
  match dest with
  | CTxDestination.CNoDestination => []
  | CTxDestination.CKeyID keyID =>
    if group.isUserGroup then
      [ScriptElem.pushData group.bytes, ScriptElem.pushAmount quantity,
       ScriptElem.OP_GROUP, ScriptElem.OP_DROP, ScriptElem.OP_DROP,
       ScriptElem.OP_DUP, ScriptElem.OP_HASH160, ScriptElem.pushData keyID,
       ScriptElem.OP_EQUALVERIFY, ScriptElem.OP_CHECKSIG]
    else
      [ScriptElem.OP_DUP, ScriptElem.OP_HASH160, ScriptElem.pushData keyID,
       ScriptElem.OP_EQUALVERIFY, ScriptElem.OP_CHECKSIG]
  | CTxDestination.CScriptID scriptID =>
    if group.isUserGroup then
      [ScriptElem.pushData group.bytes, ScriptElem.pushAmount quantity,
       ScriptElem.OP_GROUP, ScriptElem.OP_DROP, ScriptElem.OP_DROP,
       ScriptElem.OP_HASH160, ScriptElem.pushData scriptID,
       ScriptElem.OP_EQUAL]
    else
      [ScriptElem.OP_HASH160, ScriptElem.pushData scriptID,
       ScriptElem.OP_EQUAL]

/-- Modelled from the spec: the decoded group data of an output
(CTokenGroupInfo of consensus/tokengroups.h is outside src/): the
associated identifier bytes (empty for an untagged output) and the
signed amount word, which holds either a token quantity or, with the
top CTRL bit set, authority capability flags. -/
structure CTokenGroupInfo where
  associatedGroup : List Nat
  quantity : Int
deriving DecidableEq, Repr

/-- Modelled from the spec: an output is an authority exactly when the
CTRL bit of its amount word is set (amount negative as int64). -/
def CTokenGroupInfo.isAuthority (tg : CTokenGroupInfo) : Bool :=
  hasCapability (toNat64 tg.quantity) GroupAuthorityFlags.CTRL

/-- Modelled from the spec: the capability bits of an authority output;
NONE for a plain quantity output. -/
def CTokenGroupInfo.controllingGroupFlags (tg : CTokenGroupInfo) : Nat :=
  if tg.isAuthority then toNat64 tg.quantity else GroupAuthorityFlags.NONE

/-- Modelled from the spec: melt capability predicate. -/
def CTokenGroupInfo.allowsMelt (tg : CTokenGroupInfo) : Bool :=
  hasCapability tg.controllingGroupFlags GroupAuthorityFlags.MELT

/-- Modelled from the spec: mint capability predicate. -/
def CTokenGroupInfo.allowsMint (tg : CTokenGroupInfo) : Bool :=
  hasCapability tg.controllingGroupFlags GroupAuthorityFlags.MINT

/-- Modelled from the spec: renewability predicate (CCHILD set). -/
def CTokenGroupInfo.allowsRenew (tg : CTokenGroupInfo) : Bool :=
  hasCapability tg.controllingGroupFlags GroupAuthorityFlags.CCHILD

/-- Modelled from the spec: subgroup-delegation predicate. -/
def CTokenGroupInfo.allowsSubgroup (tg : CTokenGroupInfo) : Bool :=
  hasCapability tg.controllingGroupFlags GroupAuthorityFlags.SUBGROUP

/-- A spendable wallet coin: its base-currency value, its decoded group
data and its decoded destination (the ledger reference is immaterial to
the verified properties). -/
structure COutput where
  nValue : Int
  tg : CTokenGroupInfo
  dest : CTxDestination
deriving DecidableEq, Repr

/-- Loop of NearestGreaterCoin: scan the coins keeping the one whose
value strictly exceeds amt and is below the current best. -/
def NearestGreaterCoinGo : List COutput → Int → Option COutput → Int → Option COutput
  | [], _, chosenCoin, _ => chosenCoin
  | coin :: rest, amt, chosenCoin, curBest =>
    if amt < coin.nValue ∧ coin.nValue < curBest then
      NearestGreaterCoinGo rest amt (some coin) coin.nValue
    else
      NearestGreaterCoinGo rest amt chosenCoin curBest

/-- NearestGreaterCoin: returns the kept coin, none when the scan kept
nothing; curBest starts at the largest CAmount. -/
def NearestGreaterCoin (coins : List COutput) (amt : Int) : Option COutput :=
  NearestGreaterCoinGo coins amt none INT64MAX

/-- Common loop of the two greedy selection routines: append each coin
(and its value in the relevant dimension) until the running total
reaches amt or the list is exhausted. -/
def selectionGo (value : COutput → Int) :
    List COutput → Int → List COutput → Int → List COutput × Int
  | [], _, chosenCoins, cur => (chosenCoins, cur)
  | coin :: rest, amt, chosenCoins, cur =>
    let cur2 := cur + value coin
    if amt ≤ cur2 then (chosenCoins ++ [coin], cur2)
    else selectionGo value rest amt (chosenCoins ++ [coin]) cur2

/-- CoinSelection: greedy accumulation over base-currency values. -/
def CoinSelection (coins : List COutput) (amt : Int)
    (chosenCoins : List COutput) : List COutput × Int :=
  selectionGo (fun c => c.nValue) coins amt chosenCoins 0

/-- GroupCoinSelection: greedy accumulation over token quantities. -/
def GroupCoinSelection (coins : List COutput) (amt : Int)
    (chosenCoins : List COutput) : List COutput × Int :=
  selectionGo (fun c => c.tg.quantity) coins amt chosenCoins 0

/-- Sum of the base-currency values of a coin list. -/
def sumValues (coins : List COutput) : Int := (coins.map (fun c => c.nValue)).sum

/-- Sum of the token quantities of a coin list. -/
def sumQuantities (coins : List COutput) : Int :=
  (coins.map (fun c => c.tg.quantity)).sum

/-- Saturating balance step of the aggregation lambdas: clamp to the
largest CAmount instead of overflowing. -/
def saturatingAdd (balance q : Int) : Int :=
  if INT64MAX - balance < q then INT64MAX else balance + q

/-- Pointwise update of a balance map (std unordered_map modelled as a
total function with default 0). -/
def updateBal (m : List Nat → Int) (k : List Nat) (v : Int) : List Nat → Int :=
  fun k2 => if k2 = k then v else m k2

/-- Pointwise update of an authority-union map. -/
def updateAuth (m : List Nat → Nat) (k : List Nat) (v : Nat) : List Nat → Nat :=
  fun k2 => if k2 = k then v else m k2

/-- Scan loop of GetAllGroupBalancesAndAuthorities: for every coin in a
group, union its controlling flags into the authority map; add its
quantity to the balance map with saturation when it is not an
authority, and add zero (default-inserting the entry) when it is. -/
def getAllGroupBalancesAndAuthoritiesGo :
    List CTokenGroupInfo → (List Nat → Int) → (List Nat → Nat) →
    ((List Nat → Int) × (List Nat → Nat))
  | [], balances, authorities => (balances, authorities)
  | tg :: rest, balances, authorities =>
    if tg.associatedGroup ≠ [] then
      let authorities2 := updateAuth authorities tg.associatedGroup
        (authorities tg.associatedGroup ||| tg.controllingGroupFlags)
      if tg.isAuthority = false then
        getAllGroupBalancesAndAuthoritiesGo rest
          (updateBal balances tg.associatedGroup
            (saturatingAdd (balances tg.associatedGroup) tg.quantity))
          authorities2
      else
        getAllGroupBalancesAndAuthoritiesGo rest
          (updateBal balances tg.associatedGroup
            (balances tg.associatedGroup + 0))
          authorities2
    else
      getAllGroupBalancesAndAuthoritiesGo rest balances authorities

/-- GetAllGroupBalancesAndAuthorities over the decoded wallet coins,
starting from empty (all-zero) maps. -/
def GetAllGroupBalancesAndAuthorities (coins : List CTokenGroupInfo) :
    ((List Nat → Int) × (List Nat → Nat)) :=
  getAllGroupBalancesAndAuthoritiesGo coins (fun _ => 0) (fun _ => 0)

/-- Scan loop of GetGroupBalance: add, with saturation, the quantities
of the non-authority coins of the requested group whose destination
matches (CNoDestination requests every destination). -/
def getGroupBalanceGo (grpID : List Nat) (dest : CTxDestination) :
    List COutput → Int → Int
  | [], balance => balance
  | coin :: rest, balance =>
    if grpID = coin.tg.associatedGroup ∧ coin.tg.isAuthority = false then
      if dest = CTxDestination.CNoDestination ∨ coin.dest = dest then
        getGroupBalanceGo grpID dest rest (saturatingAdd balance coin.tg.quantity)
      else
        getGroupBalanceGo grpID dest rest balance
    else
      getGroupBalanceGo grpID dest rest balance

/-- GetGroupBalance: filtered saturating balance of one group. -/
def GetGroupBalance (grpID : List Nat) (dest : CTxDestination)
    (coins : List COutput) : Int :=
  getGroupBalanceGo grpID dest coins 0

/-- Quantities of the non-authority coins of one group inside a decoded
coin list, in scan order. -/
def groupQuantities (grpID : List Nat) (coins : List CTokenGroupInfo) : List Int :=
  (coins.filter (fun tg =>
    tg.associatedGroup = grpID ∧ tg.isAuthority = false)).map
    (fun tg => tg.quantity)

/-- Quantities of the non-authority coins of one group, restricted to a
destination filter, in scan order. -/
def groupQuantitiesAt (grpID : List Nat) (dest : CTxDestination)
    (coins : List COutput) : List Int :=
  (coins.filter (fun coin =>
    grpID = coin.tg.associatedGroup ∧ coin.tg.isAuthority = false ∧
    (dest = CTxDestination.CNoDestination ∨ coin.dest = dest))).map
    (fun coin => coin.tg.quantity)

/-- All 64 bits set: the uint64 complement mask. -/
def UINT64MASK : Nat := 2 ^ 64 - 1

/-- Flag word kept by the dropauthorities operation:
authoritiesOld AND NOT authoritiesToDrop on 64-bit words. -/
def authoritiesToKeep (old drop : Nat) : Nat := old &&& (UINT64MASK ^^^ drop)

/-- A recipient handed to the transaction builder: output script and
base-currency amount. -/
structure CRecipient where
  scriptPubKey : List ScriptElem
  nAmount : Int
deriving DecidableEq, Repr

/-- A transaction output: base-currency value and script. -/
structure CTxOut where
  nValue : Int
  scriptPubKey : List ScriptElem
deriving DecidableEq, Repr

/-- Modelled from the spec: the base-currency amount attached to every
grouped output (constant declared outside src/; its concrete value is
immaterial to the verified properties). -/
def GROUPED_SATOSHI_AMT : Int := 1

/-- The replacement-authority recipients appended by the dropauthorities
operation: none at all when the kept word is exactly CTRL, is NONE, or
no longer has the CTRL capability; otherwise one authority output
carrying the kept word to the coin destination. -/
def dropAuthoritiesOutputs (old drop : Nat) (dest : CTxDestination)
    (grpID : CTokenGroupID) : List CRecipient :=
  let keep := authoritiesToKeep old drop
  if keep = GroupAuthorityFlags.CTRL ∨ keep = GroupAuthorityFlags.NONE ∨
      hasCapability keep GroupAuthorityFlags.CTRL = false then
    []
  else
    [CRecipient.mk (GetScriptForDestination dest grpID (toInt64 keep))
      GROUPED_SATOSHI_AMT]

/-- The subgroup operation after the postfix bytes are fixed: reject the
no-asset sentinel (the only identifier check the source makes), reject
an empty postfix, and otherwise concatenate parent bytes and postfix. -/
def tokenSubgroupBytes (grpBytes pfix : List Nat) : Except String (List Nat) :=
  if grpBytes = [] then
    Except.error "Invalid parameter: No group specified"
  else if pfix = [] then
    Except.error "Invalid parameter: no subgroup postfix provided"
  else
    Except.ok (grpBytes ++ pfix)

/-- The guard of the string-postfix branch of the subgroup operation: it
compares the first character of the string with the character 0 and the
same first character with the character x, as the source does. -/
def subgroupHexGuard (s : List Char) : Bool :=
  match s with
  | [] => false
  | c :: _ => c = '0' ∧ c = 'x'

/-- String-postfix branch of the subgroup operation.  The lexical cast
of the string to int64 is an external library call, so its outcome is a
parameter: some n means the cast succeeded and the postfix becomes the
8-byte little-endian serialization of n; none means it threw and the
raw string bytes become the postfix. -/
def tokenSubgroupString (grpBytes : List Nat) (s : List Char)
    (lexCastResult : Option Int) : Except String (List Nat) :=
  if subgroupHexGuard s then
    Except.error "Invalid parameter: Hex not implemented yet"
  else
    let pfix := match lexCastResult with
      | some n => (List.range 8).map (fun i => toNat64 n / 2 ^ (8 * i) % 256)
      | none => s.map Char.toNat
    tokenSubgroupBytes grpBytes pfix

/-- Fee overpayment factor: the source overpays up to FEE_FUDGE times
the fee rather than create a dust change output. -/
def FEE_FUDGE : Int := 2

/-- Output list of ConstructTx before the base-currency change step:
the requested recipients, then a grouped change output when the grouped
available exceeds the grouped needed, then an XDM change output when
the XDM available exceeds the XDM needed. -/
def ConstructTxPreChange (outputs : List CRecipient)
    (totalGroupedAvailable totalGroupedNeeded totalXDMAvailable totalXDMNeeded : Int)
    (grpID darkMatterID : CTokenGroupID)
    (groupChangeKey xdmChangeKey : List Nat) : List CTxOut :=
  let vout0 := outputs.map (fun r => CTxOut.mk r.nAmount r.scriptPubKey)
  let vout1 :=
    if totalGroupedNeeded < totalGroupedAvailable then
      vout0 ++ [CTxOut.mk GROUPED_SATOSHI_AMT
        (GetScriptForDestination (CTxDestination.CKeyID groupChangeKey) grpID
          (totalGroupedAvailable - totalGroupedNeeded))]
    else vout0
  if totalXDMNeeded < totalXDMAvailable then
    vout1 ++ [CTxOut.mk GROUPED_SATOSHI_AMT
      (GetScriptForDestination (CTxDestination.CKeyID xdmChangeKey) darkMatterID
        (totalXDMAvailable - totalXDMNeeded))]
  else vout1

/-- The base-currency amount available to ConstructTx after its
fee-input step: when the given available cannot cover needed plus fee,
a further untagged input is located with NearestGreaterCoin over the
wallet coins without a group, failing when none qualifies. -/
def ConstructTxFinalAvailable (totalAvailable totalNeeded fee : Int)
    (bchCoins : List COutput) : Except String Int :=
  if totalAvailable < totalNeeded + fee then
    match NearestGreaterCoin bchCoins fee with
    | none => Except.error "Not enough funds for fee"
    | some feeCoin => Except.ok (totalAvailable + feeCoin.nValue)
  else
    Except.ok totalAvailable

/-- ConstructTx, reduced to the data the claims are about: the output
list of the assembled transaction.  The fee is a parameter because the
source computes it from serialized sizes through the external wallet
fee model; signing, commitment and key reservation are external
collaborator calls and are dropped. -/
def ConstructTx (outputs : List CRecipient)
    (totalAvailable totalNeeded totalGroupedAvailable totalGroupedNeeded
      totalXDMAvailable totalXDMNeeded : Int)
    (grpID darkMatterID : CTokenGroupID) (fee : Int) (bchCoins : List COutput)
    (groupChangeKey xdmChangeKey feeChangeKey : List Nat) :
    Except String (List CTxOut) :=
  let vout2 := ConstructTxPreChange outputs totalGroupedAvailable
    totalGroupedNeeded totalXDMAvailable totalXDMNeeded grpID darkMatterID
    groupChangeKey xdmChangeKey
  match ConstructTxFinalAvailable totalAvailable totalNeeded fee bchCoins with
  | Except.error e => Except.error e
  | Except.ok avail =>
    Except.ok
      (if totalNeeded + FEE_FUDGE * fee < avail then
        vout2 ++ [CTxOut.mk (avail - totalNeeded - fee)
          (GetScriptForDestination (CTxDestination.CKeyID feeChangeKey) NoGroup 0)]
      else vout2)

/-- RenewAuthority: when the consumed authority is renewable (CCHILD
set), append a child authority output carrying its flags masked to
ALL_BITS, to a fresh wallet key; returns the appended recipients and
the additional base currency needed. -/
def RenewAuthority (authority : COutput) (outputs : List CRecipient)
    (childKey : List Nat) : List CRecipient × Int :=
  let tg := authority.tg
  if tg.allowsRenew then
    (outputs ++ [CRecipient.mk
      (GetScriptForDestination (CTxDestination.CKeyID childKey)
        (CTokenGroupID.mk tg.associatedGroup)
        (toInt64 (tg.controllingGroupFlags &&& GroupAuthorityFlags.ALL_BITS)))
      GROUPED_SATOSHI_AMT],
     GROUPED_SATOSHI_AMT)
  else (outputs, 0)

/-- GroupMelt, with the wallet scans replaced by their results: the
melt authority the filter found and the meltable (non-authority, same
group) coins.  Token coins are selected greedily; on a shortfall the
operation fails; otherwise the authority is appended to the chosen
coins, possibly renewed, and ConstructTx is called with the surplus as
the grouped available amount and zero grouped needed. -/
def GroupMelt (grpID : CTokenGroupID) (totalNeeded : Int) (authority : COutput)
    (meltCoins : List COutput) (fee : Int) (bchCoins : List COutput)
    (darkMatterID : CTokenGroupID)
    (childKey groupChangeKey xdmChangeKey feeChangeKey : List Nat) :
    Except String (List CTxOut) :=
  let totalBchAvailable := authority.nValue
  let sel := GroupCoinSelection meltCoins totalNeeded []
  if sel.2 < totalNeeded then
    Except.error "Not enough tokens in the wallet."
  else
    let ra := RenewAuthority authority [] childKey
    ConstructTx ra.1 totalBchAvailable ra.2 (sel.2 - totalNeeded) 0 0 0
      grpID darkMatterID fee bchCoins groupChangeKey xdmChangeKey feeChangeKey

/-- Recognizer used to state the melt claims: an output whose script
carries the tagged prefix for the given group with an amount word that
does not have the CTRL capability, that is a non-authority grouped
output of that group. -/
def isNonAuthGroupedFor (grpBytes : List Nat) (o : CTxOut) : Bool :=
  match o.scriptPubKey with
  | ScriptElem.pushData bs :: ScriptElem.pushAmount q :: ScriptElem.OP_GROUP :: _ =>
    bs = grpBytes ∧ hasCapability (toNat64 q) GroupAuthorityFlags.CTRL = false
  | _ => false

/-- Decoded token quantity of an output for the melt claims: the pushed
amount of a non-authority grouped output of the group, zero otherwise. -/
def nonAuthGroupedQty (grpBytes : List Nat) (o : CTxOut) : Int :=
  match o.scriptPubKey with
  | ScriptElem.pushData bs :: ScriptElem.pushAmount q :: ScriptElem.OP_GROUP :: _ =>
    if bs = grpBytes ∧ hasCapability (toNat64 q) GroupAuthorityFlags.CTRL = false
    then q else 0
  | _ => 0

theorem selectionGo_frame (value : COutput → Int) (coins : List COutput)
    (amt : Int) (chosen : List COutput) (cur : Int) :
    selectionGo value coins amt chosen cur =
      (chosen ++ (selectionGo value coins amt [] cur).1,
       (selectionGo value coins amt [] cur).2) := by
  induction coins generalizing chosen cur with
  | nil => simp [selectionGo]
  | cons c rest ih =>
    simp only [selectionGo]
    by_cases h : amt ≤ cur + value c
    · simp [h]
    · simp only [if_neg h, List.nil_append]
      rw [ih (chosen ++ [c]), ih [c]]
      simp

theorem selectionGo_sum (value : COutput → Int) (coins : List COutput)
    (amt cur : Int) :
    (selectionGo value coins amt [] cur).2 =
      cur + ((selectionGo value coins amt [] cur).1.map value).sum := by
  induction coins generalizing cur with
  | nil => simp [selectionGo]
  | cons c rest ih =>
    simp only [selectionGo]
    by_cases h : amt ≤ cur + value c
    · simp [h]
    · simp only [if_neg h, List.nil_append]
      rw [selectionGo_frame value rest amt [c] (cur + value c)]
      simp only [List.map_append, List.sum_append, List.map_cons, List.map_nil,
        List.sum_cons, List.sum_nil]
      rw [ih (cur + value c)]
      ring

theorem selectionGo_total_ge (value : COutput → Int) (coins : List COutput)
    (amt : Int) (chosen : List COutput) (cur : Int)
    (h : amt ≤ cur + (coins.map value).sum) :
    amt ≤ (selectionGo value coins amt chosen cur).2 := by
  induction coins generalizing chosen cur with
  | nil => simpa [selectionGo] using h
  | cons c rest ih =>
    simp only [selectionGo]
    by_cases hb : amt ≤ cur + value c
    · simp [hb]
    · simp only [if_neg hb]
      apply ih
      simp only [List.map_cons, List.sum_cons] at h
      omega

theorem selectionGo_insufficient (value : COutput → Int) (coins : List COutput)
    (amt : Int) (chosen : List COutput) (cur : Int)
    (hnn : ∀ c ∈ coins, 0 ≤ value c)
    (h : cur + (coins.map value).sum < amt) :
    selectionGo value coins amt chosen cur =
      (chosen ++ coins, cur + (coins.map value).sum) := by
  induction coins generalizing chosen cur with
  | nil => simp [selectionGo]
  | cons c rest ih =>
    simp only [List.map_cons, List.sum_cons] at h
    have hrest : 0 ≤ (rest.map value).sum := by
      apply List.sum_nonneg
      intro x hx
      rcases List.mem_map.mp hx with ⟨d, hd, rfl⟩
      exact hnn d (List.mem_cons_of_mem _ hd)
    have hb : ¬ amt ≤ cur + value c := by omega
    simp only [selectionGo, if_neg hb]
    rw [ih (chosen ++ [c]) (cur + value c)
      (fun d hd => hnn d (List.mem_cons_of_mem _ hd)) (by omega)]
    simp only [List.append_assoc, List.singleton_append, List.map_cons,
      List.sum_cons]
    congr 1
    ring

/-- C5: each greedy selection routine accumulates a total at least the
target whenever the whole pool covers it, and otherwise selects the
full pool, returning its total below the target, without any error of
its own (both routines are total functions). -/
theorem claim_C5_greedyAccumulate (coins : List COutput) (amt : Int)
    (chosen : List COutput)
    (hv : ∀ c ∈ coins, 0 ≤ c.nValue)
    (hq : ∀ c ∈ coins, 0 ≤ c.tg.quantity) :
    (amt ≤ sumValues coins → amt ≤ (CoinSelection coins amt chosen).2) ∧
    (sumValues coins < amt →
      CoinSelection coins amt chosen = (chosen ++ coins, sumValues coins)) ∧
    (amt ≤ sumQuantities coins → amt ≤ (GroupCoinSelection coins amt chosen).2) ∧
    (sumQuantities coins < amt →
      GroupCoinSelection coins amt chosen = (chosen ++ coins, sumQuantities coins)) := by
  refine ⟨fun h => ?_, fun h => ?_, fun h => ?_, fun h => ?_⟩
  · exact selectionGo_total_ge _ coins amt chosen 0 (by simpa [sumValues] using h)
  · have := selectionGo_insufficient (fun c => c.nValue) coins amt chosen 0 hv
      (by simpa [sumValues] using h)
    simpa [CoinSelection, sumValues] using this
  · exact selectionGo_total_ge _ coins amt chosen 0 (by simpa [sumQuantities] using h)
  · have := selectionGo_insufficient (fun c => c.tg.quantity) coins amt chosen 0 hq
      (by simpa [sumQuantities] using h)
    simpa [GroupCoinSelection, sumQuantities] using this

theorem claim_C5_greedyAccumulate_witness :
    (let coins := [COutput.mk 4 (CTokenGroupInfo.mk [1] 4) CTxDestination.CNoDestination,
                   COutput.mk 3 (CTokenGroupInfo.mk [1] 3) CTxDestination.CNoDestination]
     6 ≤ (CoinSelection coins 6 []).2) := by
  have h := claim_C5_greedyAccumulate
    [COutput.mk 4 (CTokenGroupInfo.mk [1] 4) CTxDestination.CNoDestination,
     COutput.mk 3 (CTokenGroupInfo.mk [1] 3) CTxDestination.CNoDestination]
    6 [] (by decide) (by decide)
  exact h.1 (by decide)

/-- C9: both selection routines only append to the chosen-coin list
given by the caller: the prior selection is a prefix of the result in
its original order, and the accumulated total counts exactly the coins
appended by this call. -/
theorem claim_C9_selection_frame (coins : List COutput) (amt : Int)
    (chosen : List COutput) :
    (CoinSelection coins amt chosen).1 =
        chosen ++ (CoinSelection coins amt []).1 ∧
    (CoinSelection coins amt chosen).2 = (CoinSelection coins amt []).2 ∧
    (CoinSelection coins amt chosen).2 =
        sumValues (CoinSelection coins amt []).1 ∧
    (GroupCoinSelection coins amt chosen).1 =
        chosen ++ (GroupCoinSelection coins amt []).1 ∧
    (GroupCoinSelection coins amt chosen).2 =
        (GroupCoinSelection coins amt []).2 ∧
    (GroupCoinSelection coins amt chosen).2 =
        sumQuantities (GroupCoinSelection coins amt []).1 := by
  have h1 := selectionGo_frame (fun c => c.nValue) coins amt chosen 0
  have h2 := selectionGo_frame (fun c => c.tg.quantity) coins amt chosen 0
  have h3 := selectionGo_sum (fun c => c.nValue) coins amt 0
  have h4 := selectionGo_sum (fun c => c.tg.quantity) coins amt 0
  refine ⟨?_, ?_, ?_, ?_, ?_, ?_⟩
  · simpa [CoinSelection] using congrArg Prod.fst h1
  · simpa [CoinSelection] using congrArg Prod.snd h1
  · have := congrArg Prod.snd h1
    simp only [CoinSelection] at this ⊢
    rw [this, h3]
    simp [sumValues]
  · simpa [GroupCoinSelection] using congrArg Prod.fst h2
  · simpa [GroupCoinSelection] using congrArg Prod.snd h2
  · have := congrArg Prod.snd h2
    simp only [GroupCoinSelection] at this ⊢
    rw [this, h4]
    simp [sumQuantities]

theorem nearestGreaterCoinGo_spec (coins : List COutput) (amt : Int)
    (chosen : Option COutput) (curBest : Int)
    (hinv : ∀ c0, chosen = some c0 → c0.nValue = curBest ∧ amt < c0.nValue) :
    (NearestGreaterCoinGo coins amt chosen curBest = none ↔
      chosen = none ∧ ∀ d ∈ coins, ¬(amt < d.nValue ∧ d.nValue < curBest)) ∧
    (∀ c, NearestGreaterCoinGo coins amt chosen curBest = some c →
      amt < c.nValue ∧ c.nValue ≤ curBest ∧ (c ∈ coins ∨ chosen = some c) ∧
      ∀ d ∈ coins, amt < d.nValue → c.nValue ≤ d.nValue) := by
  induction coins generalizing chosen curBest with
  | nil =>
    constructor
    · simp [NearestGreaterCoinGo]
    · intro c hc
      simp only [NearestGreaterCoinGo] at hc
      rcases hinv c hc with ⟨h1, h2⟩
      exact ⟨h2, le_of_eq h1, Or.inr hc, by simp⟩
  | cons coin rest ih =>
    by_cases hq : amt < coin.nValue ∧ coin.nValue < curBest
    · have ih2 := ih (some coin) coin.nValue
        (by intro c0 h; cases h; exact ⟨rfl, hq.1⟩)
      simp only [NearestGreaterCoinGo, if_pos hq]
      constructor
      · constructor
        · intro h
          exact absurd (ih2.1.mp h).1 (by simp)
        · intro h
          exact absurd hq (h.2 coin (List.mem_cons_self _ _))
      · intro c hc
        rcases ih2.2 c hc with ⟨ha, hb, hm, hmin⟩
        refine ⟨ha, le_trans hb (le_of_lt hq.2), ?_, ?_⟩
        · rcases hm with hm | hm
          · exact Or.inl (List.mem_cons_of_mem _ hm)
          · cases hm
            exact Or.inl (List.mem_cons_self _ _)
        · intro d hd hgt
          rcases List.mem_cons.mp hd with rfl | hd
          · exact hb
          · exact hmin d hd hgt
    · have ih3 := ih chosen curBest hinv
      simp only [NearestGreaterCoinGo, if_neg hq]
      constructor
      · rw [ih3.1]
        constructor
        · rintro ⟨h1, h2⟩
          refine ⟨h1, ?_⟩
          intro d hd
          rcases List.mem_cons.mp hd with rfl | hd
          · exact hq
          · exact h2 d hd
        · rintro ⟨h1, h2⟩
          exact ⟨h1, fun d hd => h2 d (List.mem_cons_of_mem _ hd)⟩
      · intro c hc
        rcases ih3.2 c hc with ⟨ha, hb, hm, hmin⟩
        refine ⟨ha, hb, ?_, ?_⟩
        · rcases hm with hm | hm
          · exact Or.inl (List.mem_cons_of_mem _ hm)
          · exact Or.inr hm
        · intro d hd hgt
          rcases List.mem_cons.mp hd with rfl | hd
          · have : ¬ d.nValue < curBest := fun hlt => hq ⟨hgt, hlt⟩
            omega
          · exact hmin d hd hgt

/-- C6 counterexample: a single coin worth exactly the largest CAmount
strictly exceeds the target 0, yet NearestGreaterCoin returns none,
because the running best starts at that same largest value and the
comparison is strict. -/
theorem claim_C6_nearestGreater_counterexample :
    NearestGreaterCoin
      [COutput.mk INT64MAX (CTokenGroupInfo.mk [] 0)
        CTxDestination.CNoDestination] 0 = none ∧
    0 < (COutput.mk INT64MAX (CTokenGroupInfo.mk [] 0)
        CTxDestination.CNoDestination).nValue := by
  constructor
  · rfl
  · decide

/-- C6 amended: NearestGreaterCoin returns none exactly when no coin
has value strictly between the target and the largest CAmount (a coin
of value exactly INT64MAX is never selected); any returned coin is in
the list, strictly exceeds the target, and is of minimal value among
all coins strictly exceeding the target. -/
theorem claim_C6_nearestGreater_amended (coins : List COutput) (amt : Int) :
    (NearestGreaterCoin coins amt = none ↔
      ∀ d ∈ coins, ¬(amt < d.nValue ∧ d.nValue < INT64MAX)) ∧
    (∀ c, NearestGreaterCoin coins amt = some c →
      c ∈ coins ∧ amt < c.nValue ∧
      ∀ d ∈ coins, amt < d.nValue → c.nValue ≤ d.nValue) := by
  have h := nearestGreaterCoinGo_spec coins amt none INT64MAX
    (by intro c0 h0; cases h0)
  constructor
  · rw [NearestGreaterCoin, h.1]
    simp
  · intro c hc
    rcases h.2 c hc with ⟨ha, _, hm, hmin⟩
    rcases hm with hm | hm
    · exact ⟨hm, ha, hmin⟩
    · cases hm

theorem claim_C6_nearestGreater_amended_witness :
    (COutput.mk 3 (CTokenGroupInfo.mk [] 0) CTxDestination.CNoDestination) ∈
      [COutput.mk 3 (CTokenGroupInfo.mk [] 0) CTxDestination.CNoDestination,
       COutput.mk 5 (CTokenGroupInfo.mk [] 0) CTxDestination.CNoDestination] ∧
    (2 : Int) < 3 ∧
    ∀ d ∈ [COutput.mk 3 (CTokenGroupInfo.mk [] 0) CTxDestination.CNoDestination,
       COutput.mk 5 (CTokenGroupInfo.mk [] 0) CTxDestination.CNoDestination],
      (2 : Int) < d.nValue →
      (COutput.mk 3 (CTokenGroupInfo.mk [] 0)
        CTxDestination.CNoDestination).nValue ≤ d.nValue :=
  (claim_C6_nearestGreater_amended
    [COutput.mk 3 (CTokenGroupInfo.mk [] 0) CTxDestination.CNoDestination,
     COutput.mk 5 (CTokenGroupInfo.mk [] 0) CTxDestination.CNoDestination] 2).2
    (COutput.mk 3 (CTokenGroupInfo.mk [] 0) CTxDestination.CNoDestination) rfl

theorem saturatingAdd_eq_min (b q : Int) :
    saturatingAdd b q = min (b + q) INT64MAX := by
  unfold saturatingAdd
  split <;> omega

theorem satFold_eq_min (qs : List Int) (b : Int)
    (hnn : ∀ q ∈ qs, 0 ≤ q) (hb : b ≤ INT64MAX) :
    List.foldl saturatingAdd b qs = min (b + qs.sum) INT64MAX := by
  induction qs generalizing b with
  | nil => simpa using hb
  | cons q qs ih =>
    have hq : 0 ≤ q := hnn q (List.mem_cons_self _ _)
    have hrest : 0 ≤ qs.sum := by
      apply List.sum_nonneg
      intro x hx
      exact hnn x (List.mem_cons_of_mem _ hx)
    simp only [List.foldl_cons, List.sum_cons]
    rw [ih (saturatingAdd b q) (fun x hx => hnn x (List.mem_cons_of_mem _ hx))
      (by rw [saturatingAdd_eq_min]; omega)]
    rw [saturatingAdd_eq_min]
    omega

theorem getAllGo_balance (coins : List CTokenGroupInfo)
    (bal : List Nat → Int) (auth : List Nat → Nat) (g : List Nat)
    (hg : g ≠ []) :
    (getAllGroupBalancesAndAuthoritiesGo coins bal auth).1 g =
      List.foldl saturatingAdd (bal g) (groupQuantities g coins) := by
  induction coins generalizing bal auth with
  | nil => simp [getAllGroupBalancesAndAuthoritiesGo, groupQuantities]
  | cons tg rest ih =>
    by_cases hempty : tg.associatedGroup = []
    · have hgrp : ¬ tg.associatedGroup = g := by
        intro h
        rw [← h] at hg
        exact hg hempty
      have hfil : groupQuantities g (tg :: rest) = groupQuantities g rest := by
        unfold groupQuantities
        rw [List.filter_cons_of_neg (by simp [hgrp])]
      simp only [getAllGroupBalancesAndAuthoritiesGo,
        if_neg (by simpa using hempty : ¬ tg.associatedGroup ≠ [])]
      rw [ih, hfil]
    · by_cases hauth : tg.isAuthority = false
      · by_cases hgrp : tg.associatedGroup = g
        · simp only [getAllGroupBalancesAndAuthoritiesGo,
            if_pos (hempty : tg.associatedGroup ≠ []), if_pos hauth]
          rw [ih]
          have hupd : (updateBal bal tg.associatedGroup
              (saturatingAdd (bal tg.associatedGroup) tg.quantity)) g =
              saturatingAdd (bal g) tg.quantity := by
            simp [updateBal, hgrp]
          have hfil : groupQuantities g (tg :: rest) =
              tg.quantity :: groupQuantities g rest := by
            unfold groupQuantities
            rw [List.filter_cons_of_pos (by simp [hgrp, hauth])]
            simp
          rw [hupd, hfil, List.foldl_cons]
        · simp only [getAllGroupBalancesAndAuthoritiesGo,
            if_pos (hempty : tg.associatedGroup ≠ []), if_pos hauth]
          rw [ih]
          have hupd : (updateBal bal tg.associatedGroup
              (saturatingAdd (bal tg.associatedGroup) tg.quantity)) g =
              bal g := by
            simp only [updateBal]
            rw [if_neg (fun h => hgrp h.symm)]
          have hfil : groupQuantities g (tg :: rest) = groupQuantities g rest := by
            unfold groupQuantities
            rw [List.filter_cons_of_neg (by simp [hgrp])]
          rw [hupd, hfil]
      · have htrue : tg.isAuthority = true := by
          cases h : tg.isAuthority
          · exact absurd h hauth
          · rfl
        simp only [getAllGroupBalancesAndAuthoritiesGo,
          if_pos (hempty : tg.associatedGroup ≠ []), if_neg hauth]
        rw [ih]
        have hupd : (updateBal bal tg.associatedGroup
            (bal tg.associatedGroup + 0)) g = bal g := by
          simp only [updateBal]
          by_cases hgg : g = tg.associatedGroup
          · rw [if_pos hgg, hgg]
            ring
          · rw [if_neg hgg]
        have hfil : groupQuantities g (tg :: rest) = groupQuantities g rest := by
          unfold groupQuantities
          rw [List.filter_cons_of_neg (by simp [htrue])]
        rw [hupd, hfil]

theorem getGroupBalanceGo_fold (grpID : List Nat) (dest : CTxDestination)
    (coins : List COutput) (b : Int) :
    getGroupBalanceGo grpID dest coins b =
      List.foldl saturatingAdd b (groupQuantitiesAt grpID dest coins) := by
  induction coins generalizing b with
  | nil => simp [getGroupBalanceGo, groupQuantitiesAt]
  | cons coin rest ih =>
    by_cases h1 : grpID = coin.tg.associatedGroup ∧ coin.tg.isAuthority = false
    · by_cases h2 : dest = CTxDestination.CNoDestination ∨ coin.dest = dest
      · simp only [getGroupBalanceGo, if_pos h1, if_pos h2]
        rw [ih]
        have hfil : groupQuantitiesAt grpID dest (coin :: rest) =
            coin.tg.quantity :: groupQuantitiesAt grpID dest rest := by
          unfold groupQuantitiesAt
          rw [List.filter_cons_of_pos (by simp [h1.1, h1.2, h2])]
          simp
        rw [hfil, List.foldl_cons]
      · simp only [getGroupBalanceGo, if_pos h1, if_neg h2]
        rw [ih]
        have hfil : groupQuantitiesAt grpID dest (coin :: rest) =
            groupQuantitiesAt grpID dest rest := by
          unfold groupQuantitiesAt
          rw [List.filter_cons_of_neg
            (by simp only [decide_eq_true_eq]; exact fun h => h2 h.2.2)]
        rw [hfil]
    · simp only [getGroupBalanceGo, if_neg h1]
      rw [ih]
      have hfil : groupQuantitiesAt grpID dest (coin :: rest) =
          groupQuantitiesAt grpID dest rest := by
        unfold groupQuantitiesAt
        rw [List.filter_cons_of_neg
          (by simp only [decide_eq_true_eq]; exact fun h => h1 ⟨h.1, h.2.1⟩)]
      rw [hfil]

/-- C4: balance aggregation yields, per identifier, the clamped
(saturating, never wrapping) sum of the quantities of that identifier's
non-authority outputs, both in the wallet-wide scan and in the
destination-filtered single-group scan, and no authority output's
amount word ever enters any balance (the summed list ranges over
non-authority outputs only). -/
theorem claim_C4_balance_aggregation (coins : List CTokenGroupInfo)
    (g : List Nat) (walletCoins : List COutput) (grpID : List Nat)
    (dest : CTxDestination)
    (hg : g ≠ [])
    (hnn : ∀ tg ∈ coins, tg.isAuthority = false → 0 ≤ tg.quantity)
    (hnn2 : ∀ c ∈ walletCoins, c.tg.isAuthority = false → 0 ≤ c.tg.quantity) :
    (GetAllGroupBalancesAndAuthorities coins).1 g =
      min (groupQuantities g coins).sum INT64MAX ∧
    GetGroupBalance grpID dest walletCoins =
      min (groupQuantitiesAt grpID dest walletCoins).sum INT64MAX := by
  constructor
  · rw [GetAllGroupBalancesAndAuthorities, getAllGo_balance _ _ _ g hg]
    rw [satFold_eq_min]
    · simp
    · intro q hq
      simp only [groupQuantities, List.mem_map, List.mem_filter,
        decide_eq_true_eq] at hq
      rcases hq with ⟨tg, ⟨htg, hc⟩, rfl⟩
      exact hnn tg htg hc.2
    · rw [INT64MAX]; omega
  · rw [GetGroupBalance, getGroupBalanceGo_fold]
    rw [satFold_eq_min]
    · simp
    · intro q hq
      simp only [groupQuantitiesAt, List.mem_map, List.mem_filter,
        decide_eq_true_eq] at hq
      rcases hq with ⟨coin, ⟨hcoin, hc⟩, rfl⟩
      exact hnn2 coin hcoin hc.2.1
    · rw [INT64MAX]; omega

theorem claim_C4_balance_aggregation_witness :
    (GetAllGroupBalancesAndAuthorities
      [CTokenGroupInfo.mk [1] 7, CTokenGroupInfo.mk [1] (toInt64 (2 ^ 63)),
       CTokenGroupInfo.mk [1] 5]).1 [1] =
      min (groupQuantities [1]
        [CTokenGroupInfo.mk [1] 7, CTokenGroupInfo.mk [1] (toInt64 (2 ^ 63)),
         CTokenGroupInfo.mk [1] 5]).sum INT64MAX ∧
    GetGroupBalance [1] CTxDestination.CNoDestination
      [COutput.mk 1 (CTokenGroupInfo.mk [1] 7) CTxDestination.CNoDestination] =
      min (groupQuantitiesAt [1] CTxDestination.CNoDestination
        [COutput.mk 1 (CTokenGroupInfo.mk [1] 7)
          CTxDestination.CNoDestination]).sum INT64MAX :=
  claim_C4_balance_aggregation
    [CTokenGroupInfo.mk [1] 7, CTokenGroupInfo.mk [1] (toInt64 (2 ^ 63)),
     CTokenGroupInfo.mk [1] 5] [1]
    [COutput.mk 1 (CTokenGroupInfo.mk [1] 7) CTxDestination.CNoDestination]
    [1] CTxDestination.CNoDestination (by decide)
    (by decide) (by decide)

theorem hasCap_ctrl_ne_none (k : Nat)
    (h : hasCapability k GroupAuthorityFlags.CTRL = true) :
    k ≠ GroupAuthorityFlags.NONE := by
  intro hk
  rw [hk] at h
  exact absurd h (by decide)

/-- C2 counterexample: dropping MINT from a coin whose flags are
CTRL with MINT leaves exactly CTRL, which still contains CTRL and is
non-empty, yet the operation appends no replacement authority output,
because the kept word equal to CTRL alone is also destroyed. -/
theorem claim_C2_dropAuthority_counterexample :
    dropAuthoritiesOutputs
      (GroupAuthorityFlags.CTRL ||| GroupAuthorityFlags.MINT)
      GroupAuthorityFlags.MINT (CTxDestination.CKeyID [1])
      (CTokenGroupID.mk [2]) = [] ∧
    hasCapability
      (authoritiesToKeep
        (GroupAuthorityFlags.CTRL ||| GroupAuthorityFlags.MINT)
        GroupAuthorityFlags.MINT) GroupAuthorityFlags.CTRL = true ∧
    authoritiesToKeep
      (GroupAuthorityFlags.CTRL ||| GroupAuthorityFlags.MINT)
      GroupAuthorityFlags.MINT ≠ GroupAuthorityFlags.NONE := by
  refine ⟨?_, by decide, by decide⟩
  simp only [dropAuthoritiesOutputs]
  rw [if_pos]
  left
  decide

/-- C2 amended: the operation computes the kept word as
authoritiesOld AND NOT flagsToDrop and appends a replacement authority
output carrying it if and only if the kept word still contains CTRL
and differs from CTRL alone (retains at least one capability besides
CTRL); a kept word that is empty, lacks CTRL, or equals exactly CTRL
yields no replacement and destroys the capability at that coin.
Dropping MELT from MINT, MELT and CTRL keeps MINT with CTRL; dropping
all three keeps NONE and yields no replacement. -/
theorem claim_C2_dropAuthority_amended (old drop : Nat)
    (dest : CTxDestination) (grpID : CTokenGroupID) :
    (dropAuthoritiesOutputs old drop dest grpID ≠ [] ↔
      (hasCapability (authoritiesToKeep old drop)
        GroupAuthorityFlags.CTRL = true ∧
       authoritiesToKeep old drop ≠ GroupAuthorityFlags.CTRL)) ∧
    (∀ r ∈ dropAuthoritiesOutputs old drop dest grpID,
      r.scriptPubKey = GetScriptForDestination dest grpID
        (toInt64 (authoritiesToKeep old drop))) ∧
    authoritiesToKeep
      (GroupAuthorityFlags.MINT ||| GroupAuthorityFlags.MELT |||
        GroupAuthorityFlags.CTRL) GroupAuthorityFlags.MELT =
      (GroupAuthorityFlags.MINT ||| GroupAuthorityFlags.CTRL) ∧
    dropAuthoritiesOutputs
      (GroupAuthorityFlags.MINT ||| GroupAuthorityFlags.MELT |||
        GroupAuthorityFlags.CTRL)
      (GroupAuthorityFlags.MINT ||| GroupAuthorityFlags.MELT |||
        GroupAuthorityFlags.CTRL) dest grpID = [] := by
  refine ⟨?_, ?_, by decide, ?_⟩
  · by_cases hcond : authoritiesToKeep old drop = GroupAuthorityFlags.CTRL ∨
        authoritiesToKeep old drop = GroupAuthorityFlags.NONE ∨
        hasCapability (authoritiesToKeep old drop)
          GroupAuthorityFlags.CTRL = false
    · simp only [dropAuthoritiesOutputs, if_pos hcond, ne_eq,
        not_true_eq_false, false_iff, not_and]
      intro hcap hne
      rcases hcond with h | h | h
      · exact hne h
      · exact hasCap_ctrl_ne_none _ hcap h
      · rw [hcap] at h
        cases h
    · simp only [dropAuthoritiesOutputs, if_neg hcond]
      push_neg at hcond
      constructor
      · intro _
        refine ⟨?_, hcond.1⟩
        cases h : hasCapability (authoritiesToKeep old drop)
          GroupAuthorityFlags.CTRL
        · exact absurd h hcond.2.2
        · rfl
      · intro _
        simp
  · intro r hr
    simp only [dropAuthoritiesOutputs] at hr
    by_cases hcond : authoritiesToKeep old drop = GroupAuthorityFlags.CTRL ∨
        authoritiesToKeep old drop = GroupAuthorityFlags.NONE ∨
        hasCapability (authoritiesToKeep old drop)
          GroupAuthorityFlags.CTRL = false
    · rw [if_pos hcond] at hr
      exact absurd hr (List.not_mem_nil r)
    · rw [if_neg hcond] at hr
      rw [List.mem_singleton.mp hr]
  · simp only [dropAuthoritiesOutputs]
    rw [if_pos]
    right
    left
    decide

theorem claim_C2_dropAuthority_amended_witness :
    dropAuthoritiesOutputs
      (GroupAuthorityFlags.CTRL ||| GroupAuthorityFlags.MINT |||
        GroupAuthorityFlags.MELT) GroupAuthorityFlags.MELT
      (CTxDestination.CKeyID [1]) (CTokenGroupID.mk [2]) ≠ [] :=
  (claim_C2_dropAuthority_amended
    (GroupAuthorityFlags.CTRL ||| GroupAuthorityFlags.MINT |||
      GroupAuthorityFlags.MELT) GroupAuthorityFlags.MELT
    (CTxDestination.CKeyID [1]) (CTokenGroupID.mk [2])).1.mpr
    ⟨by decide, by decide⟩

/-- C3 counterexample: a 32-byte parent identifier (not a 20-byte
single identifier) with a one-byte postfix succeeds and returns the
concatenation, where the claim requires the operation to fail. -/
theorem claim_C3_subgroup_counterexample :
    tokenSubgroupBytes (List.replicate 32 7) [1] =
      Except.ok (List.replicate 32 7 ++ [1]) ∧
    (List.replicate 32 7).length ≠ 20 := by
  constructor
  · rfl
  · decide

/-- C3 amended: the subgroup operation returns the byte concatenation
of parent bytes and postfix for every parent other than the no-asset
sentinel, of any length (single, minted, or an existing subgroup), and
fails with an invalid-parameter error exactly when the parent bytes
are empty or the postfix is empty. -/
theorem claim_C3_subgroup_amended (grpBytes pfix : List Nat) :
    (grpBytes ≠ [] → pfix ≠ [] →
      tokenSubgroupBytes grpBytes pfix = Except.ok (grpBytes ++ pfix)) ∧
    ((∃ e, tokenSubgroupBytes grpBytes pfix = Except.error e) ↔
      grpBytes = [] ∨ pfix = []) := by
  by_cases h1 : grpBytes = []
  · simp [tokenSubgroupBytes, h1]
  · by_cases h2 : pfix = []
    · simp [tokenSubgroupBytes, h1, h2]
    · simp [tokenSubgroupBytes, h1, h2]

theorem claim_C3_subgroup_amended_witness :
    tokenSubgroupBytes (List.replicate 20 3) [5] =
      Except.ok (List.replicate 20 3 ++ [5]) :=
  (claim_C3_subgroup_amended (List.replicate 20 3) [5]).1
    (by decide) (by decide)

/-- C10: the hexadecimal guard of the subgroup operation tests the
same character position for the character 0 and the character x, a
conjunction that never holds, so the hex-rejection branch is
unreachable for every string, and a non-numeric string postfix
(lexical cast failed) is used byte-for-byte as the subgroup postfix. -/
theorem claim_C10_hexGuard_unreachable (s : List Char) (grpBytes : List Nat)
    (hg : grpBytes ≠ []) (hs : s ≠ []) :
    subgroupHexGuard s = false ∧
    tokenSubgroupString grpBytes s none =
      Except.ok (grpBytes ++ s.map Char.toNat) := by
  have hguard : subgroupHexGuard s = false := by
    cases s with
    | nil => rfl
    | cons c cs =>
      simp only [subgroupHexGuard, decide_eq_false_iff_not]
      rintro ⟨h1, h2⟩
      rw [h1] at h2
      exact absurd h2 (by decide)
  refine ⟨hguard, ?_⟩
  have hmap : s.map Char.toNat ≠ [] := by
    intro h
    exact hs (List.map_eq_nil_iff.mp h)
  simp only [tokenSubgroupString, hguard, Bool.false_eq_true, if_false]
  unfold tokenSubgroupBytes
  rw [if_neg hg, if_neg hmap]

theorem claim_C10_hexGuard_unreachable_witness :
    subgroupHexGuard ['0', 'x', '0', '1'] = false ∧
    tokenSubgroupString [1] ['0', 'x', '0', '1'] none =
      Except.ok ([1] ++ (['0', 'x', '0', '1'].map Char.toNat)) :=
  claim_C10_hexGuard_unreachable ['0', 'x', '0', '1'] [1]
    (by decide) (by decide)

/-- C8: with the no-asset sentinel the encoder emits exactly the
standard untagged key-hash and script-hash templates, and with a
user-group identifier exactly the tagged prefix (identifier bytes,
serialized amount, OP_GROUP and two OP_DROP opcodes) followed by the
key-hash template or the script-hash template. -/
theorem claim_C8_script_encoding (g : CTokenGroupID) (q : Int)
    (keyHash scriptHash : List Nat) :
    GetScriptForDestination (CTxDestination.CKeyID keyHash) NoGroup q =
      [ScriptElem.OP_DUP, ScriptElem.OP_HASH160, ScriptElem.pushData keyHash,
       ScriptElem.OP_EQUALVERIFY, ScriptElem.OP_CHECKSIG] ∧
    GetScriptForDestination (CTxDestination.CScriptID scriptHash) NoGroup q =
      [ScriptElem.OP_HASH160, ScriptElem.pushData scriptHash,
       ScriptElem.OP_EQUAL] ∧
    (g.isUserGroup = true →
      GetScriptForDestination (CTxDestination.CKeyID keyHash) g q =
        [ScriptElem.pushData g.bytes, ScriptElem.pushAmount q,
         ScriptElem.OP_GROUP, ScriptElem.OP_DROP, ScriptElem.OP_DROP,
         ScriptElem.OP_DUP, ScriptElem.OP_HASH160,
         ScriptElem.pushData keyHash,
         ScriptElem.OP_EQUALVERIFY, ScriptElem.OP_CHECKSIG]) ∧
    (g.isUserGroup = true →
      GetScriptForDestination (CTxDestination.CScriptID scriptHash) g q =
        [ScriptElem.pushData g.bytes, ScriptElem.pushAmount q,
         ScriptElem.OP_GROUP, ScriptElem.OP_DROP, ScriptElem.OP_DROP,
         ScriptElem.OP_HASH160, ScriptElem.pushData scriptHash,
         ScriptElem.OP_EQUAL]) := by
  refine ⟨?_, ?_, fun h => ?_, fun h => ?_⟩
  · simp [GetScriptForDestination, NoGroup, CTokenGroupID.isUserGroup]
  · simp [GetScriptForDestination, NoGroup, CTokenGroupID.isUserGroup]
  · simp [GetScriptForDestination, h]
  · simp [GetScriptForDestination, h]

theorem claim_C8_script_encoding_witness :
    GetScriptForDestination (CTxDestination.CKeyID [9])
      (CTokenGroupID.mk [7]) 5 =
      [ScriptElem.pushData [7], ScriptElem.pushAmount 5,
       ScriptElem.OP_GROUP, ScriptElem.OP_DROP, ScriptElem.OP_DROP,
       ScriptElem.OP_DUP, ScriptElem.OP_HASH160, ScriptElem.pushData [9],
       ScriptElem.OP_EQUALVERIFY, ScriptElem.OP_CHECKSIG] :=
  (claim_C8_script_encoding (CTokenGroupID.mk [7]) 5 [9] [8]).2.2.1
    (by decide)

/-- C7: given the base currency finally available after the fee-input
step, ConstructTx appends a base-currency change output if and only if
that available amount strictly exceeds needed plus FEE_FUDGE times the
fee, and the appended output carries available minus needed minus fee;
below the threshold the output list is exactly the pre-change list and
the excess is absorbed as extra fee. -/
theorem claim_C7_base_change (outputs : List CRecipient)
    (totalAvailable totalNeeded tga tgn txa txn : Int)
    (grpID dmID : CTokenGroupID) (fee : Int) (bchCoins : List COutput)
    (k1 k2 k3 : List Nat) (avail : Int)
    (hav : ConstructTxFinalAvailable totalAvailable totalNeeded fee bchCoins =
      Except.ok avail) :
    (totalNeeded + FEE_FUDGE * fee < avail →
      ConstructTx outputs totalAvailable totalNeeded tga tgn txa txn
          grpID dmID fee bchCoins k1 k2 k3 =
        Except.ok (ConstructTxPreChange outputs tga tgn txa txn
            grpID dmID k1 k2 ++
          [CTxOut.mk (avail - totalNeeded - fee)
            (GetScriptForDestination (CTxDestination.CKeyID k3) NoGroup 0)])) ∧
    (¬ totalNeeded + FEE_FUDGE * fee < avail →
      ConstructTx outputs totalAvailable totalNeeded tga tgn txa txn
          grpID dmID fee bchCoins k1 k2 k3 =
        Except.ok (ConstructTxPreChange outputs tga tgn txa txn
            grpID dmID k1 k2)) := by
  unfold ConstructTx
  rw [hav]
  constructor <;> intro h <;> simp [h]

theorem claim_C7_base_change_witness :
    ConstructTx [] 1000 0 0 0 0 0 (CTokenGroupID.mk [1])
      (CTokenGroupID.mk [2]) 10 [] [3] [4] [5] =
    Except.ok (ConstructTxPreChange [] 0 0 0 0 (CTokenGroupID.mk [1])
        (CTokenGroupID.mk [2]) [3] [4] ++
      [CTxOut.mk (1000 - 0 - 10)
        (GetScriptForDestination (CTxDestination.CKeyID [5]) NoGroup 0)]) :=
  (claim_C7_base_change [] 1000 0 0 0 0 0 (CTokenGroupID.mk [1])
    (CTokenGroupID.mk [2]) 10 [] [3] [4] [5] 1000 rfl).1 (by decide)

theorem toNat64_toInt64 (x : Nat) (hx : x < 2 ^ 64) :
    toNat64 (toInt64 x) = x := by
  unfold toNat64 toInt64
  split <;> omega

theorem land_allbits_lt (w : Nat) :
    w &&& GroupAuthorityFlags.ALL_BITS < 2 ^ 64 :=
  lt_of_le_of_lt Nat.and_le_right (by decide)

theorem hasCap_land_allbits (w : Nat)
    (h : hasCapability w GroupAuthorityFlags.CTRL = true) :
    hasCapability (w &&& GroupAuthorityFlags.ALL_BITS)
      GroupAuthorityFlags.CTRL = true := by
  simp only [hasCapability, beq_iff_eq] at h ⊢
  rw [Nat.land_assoc]
  rw [(by decide : GroupAuthorityFlags.ALL_BITS &&& GroupAuthorityFlags.CTRL =
    GroupAuthorityFlags.CTRL)]
  exact h

theorem hasCap_ctrl_false_of_lt (x : Nat) (hx : x < 2 ^ 63) :
    hasCapability x GroupAuthorityFlags.CTRL = false := by
  simp only [hasCapability, beq_eq_false_iff_ne, ne_eq]
  intro h
  have hle : x &&& GroupAuthorityFlags.CTRL ≤ x := Nat.and_le_left
  rw [h] at hle
  rw [GroupAuthorityFlags.CTRL] at hle
  omega

theorem isNonAuthGroupedFor_untagged (gb k : List Nat) (v : Int) :
    isNonAuthGroupedFor gb (CTxOut.mk v
      (GetScriptForDestination (CTxDestination.CKeyID k) NoGroup 0)) =
      false := rfl

theorem isNonAuthGroupedFor_renew (gb : List Nat) (gg : CTokenGroupID)
    (k : List Nat) (v : Int) (w : Nat) (hg : gg.bytes = gb) (hgb : gb ≠ [])
    (hw : hasCapability w GroupAuthorityFlags.CTRL = true) :
    isNonAuthGroupedFor gb (CTxOut.mk v
      (GetScriptForDestination (CTxDestination.CKeyID k) gg
        (toInt64 (w &&& GroupAuthorityFlags.ALL_BITS)))) = false := by
  have h1 : gg.isUserGroup = true := by
    simp [CTokenGroupID.isUserGroup, hg, hgb]
  simp only [GetScriptForDestination, h1, if_true]
  simp only [isNonAuthGroupedFor, decide_eq_false_iff_not]
  rintro ⟨-, hcap⟩
  rw [toNat64_toInt64 _ (land_allbits_lt w)] at hcap
  rw [hasCap_land_allbits w hw] at hcap
  cases hcap

theorem isNonAuthGroupedFor_change (gb : List Nat) (gg : CTokenGroupID)
    (k : List Nat) (v q : Int) (hg : gg.bytes = gb)
    (hgb : gb ≠ []) (hq0 : 0 ≤ q) (hqlt : q < 2 ^ 63) :
    isNonAuthGroupedFor gb (CTxOut.mk v
      (GetScriptForDestination (CTxDestination.CKeyID k) gg q)) = true := by
  have h1 : gg.isUserGroup = true := by
    simp [CTokenGroupID.isUserGroup, hg, hgb]
  have h2 : toNat64 q < 2 ^ 63 := by
    unfold toNat64
    omega
  simp only [GetScriptForDestination, h1, if_true]
  simp [isNonAuthGroupedFor, hasCap_ctrl_false_of_lt _ h2, hg]

/-- C1 counterexample: melting 3 out of a single 5-token coin (surplus
2) produces a transaction that does contain a token-dimension output
for the melted group: a grouped change output carrying the surplus 2
back to a fresh wallet key, where the claim requires no such output. -/
theorem claim_C1_melt_counterexample :
    GroupMelt (CTokenGroupID.mk (List.replicate 20 1)) 3
      (COutput.mk 10000 (CTokenGroupInfo.mk (List.replicate 20 1)
        (toInt64 (GroupAuthorityFlags.CTRL ||| GroupAuthorityFlags.MELT)))
        CTxDestination.CNoDestination)
      [COutput.mk 1 (CTokenGroupInfo.mk (List.replicate 20 1) 5)
        CTxDestination.CNoDestination]
      10 [] (CTokenGroupID.mk [2]) [3] [4] [5] [6] =
    Except.ok [CTxOut.mk GROUPED_SATOSHI_AMT
        (GetScriptForDestination (CTxDestination.CKeyID [4])
          (CTokenGroupID.mk (List.replicate 20 1)) 2),
      CTxOut.mk 9990
        (GetScriptForDestination (CTxDestination.CKeyID [6]) NoGroup 0)] ∧
    List.filter (isNonAuthGroupedFor (List.replicate 20 1))
      [CTxOut.mk GROUPED_SATOSHI_AMT
        (GetScriptForDestination (CTxDestination.CKeyID [4])
          (CTokenGroupID.mk (List.replicate 20 1)) 2),
       CTxOut.mk 9990
        (GetScriptForDestination (CTxDestination.CKeyID [6]) NoGroup 0)] =
      [CTxOut.mk GROUPED_SATOSHI_AMT
        (GetScriptForDestination (CTxDestination.CKeyID [4])
          (CTokenGroupID.mk (List.replicate 20 1)) 2)] := by
  constructor <;> rfl

/-- C1 amended: a successful melt of qty tokens whose greedy selection
accumulated a total T at least qty destroys exactly qty, not the
surplus: the assembled transaction contains, among non-authority
grouped outputs of the melted group, exactly one grouped change output
carrying the surplus T minus qty back to a fresh wallet key when
T exceeds qty, and none when T equals qty.  There is never a melt
output, and the renewed authority output is an authority, not a
quantity output. -/
theorem claim_C1_melt_amended (g : CTokenGroupID) (qty : Int)
    (authority : COutput) (meltCoins : List COutput) (fee : Int)
    (bchCoins : List COutput) (dmID : CTokenGroupID)
    (childKey k1 k2 k3 : List Nat)
    (hgb : g.bytes ≠ [])
    (hagrp : authority.tg.associatedGroup = g.bytes)
    (hctrl : hasCapability (toNat64 authority.tg.quantity)
      GroupAuthorityFlags.CTRL = true)
    (hq : qty ≤ (GroupCoinSelection meltCoins qty []).2)
    (hbound : (GroupCoinSelection meltCoins qty []).2 - qty < 2 ^ 63) :
    ∀ v, GroupMelt g qty authority meltCoins fee bchCoins dmID
        childKey k1 k2 k3 = Except.ok v →
      v.filter (isNonAuthGroupedFor g.bytes) =
        (if qty < (GroupCoinSelection meltCoins qty []).2 then
          [CTxOut.mk GROUPED_SATOSHI_AMT
            (GetScriptForDestination (CTxDestination.CKeyID k1) g
              ((GroupCoinSelection meltCoins qty []).2 - qty))]
        else []) := by
  intro v hv
  have hT : ¬ (GroupCoinSelection meltCoins qty []).2 < qty := not_lt.mpr hq
  simp only [GroupMelt] at hv
  rw [if_neg hT] at hv
  have hflags : authority.tg.controllingGroupFlags =
      toNat64 authority.tg.quantity := by
    simp [CTokenGroupInfo.controllingGroupFlags, CTokenGroupInfo.isAuthority,
      hctrl]
  have hfilter0 : List.filter (isNonAuthGroupedFor g.bytes)
      ((RenewAuthority authority [] childKey).1.map
        (fun r => CTxOut.mk r.nAmount r.scriptPubKey)) = [] := by
    cases hren : authority.tg.allowsRenew
    · simp [RenewAuthority, hren]
    · simp only [RenewAuthority, hren, if_true, List.nil_append,
        List.map_cons, List.map_nil]
      rw [List.filter_cons_of_neg]
      · rfl
      · rw [hflags]
        rw [isNonAuthGroupedFor_renew g.bytes
          (CTokenGroupID.mk authority.tg.associatedGroup) childKey
          GROUPED_SATOSHI_AMT (toNat64 authority.tg.quantity) hagrp hgb hctrl]
        simp
  have hA : List.filter (isNonAuthGroupedFor g.bytes)
      (ConstructTxPreChange (RenewAuthority authority [] childKey).1
        ((GroupCoinSelection meltCoins qty []).2 - qty) 0 0 0 g dmID k1 k2) =
      (if qty < (GroupCoinSelection meltCoins qty []).2 then
        [CTxOut.mk GROUPED_SATOSHI_AMT
          (GetScriptForDestination (CTxDestination.CKeyID k1) g
            ((GroupCoinSelection meltCoins qty []).2 - qty))]
      else []) := by
    by_cases hlt : qty < (GroupCoinSelection meltCoins qty []).2
    · have h0 : (0:Int) < (GroupCoinSelection meltCoins qty []).2 - qty := by
        omega
      have hchange := isNonAuthGroupedFor_change g.bytes g k1
        GROUPED_SATOSHI_AMT ((GroupCoinSelection meltCoins qty []).2 - qty)
        rfl hgb (by omega) hbound
      simp only [ConstructTxPreChange, if_pos h0, lt_irrefl, if_false,
        sub_zero, List.filter_append, hfilter0, List.nil_append, if_pos hlt]
      rw [List.filter_cons_of_pos hchange]
      rfl
    · have h0 : ¬ (0:Int) < (GroupCoinSelection meltCoins qty []).2 - qty := by
        omega
      simp only [ConstructTxPreChange, if_neg h0, lt_irrefl, if_false,
        sub_zero, hfilter0, if_neg hlt]
  simp only [ConstructTx] at hv
  cases hfin : ConstructTxFinalAvailable authority.nValue
      (RenewAuthority authority [] childKey).2 fee bchCoins with
  | error e =>
    rw [hfin] at hv
    simp at hv
  | ok avail =>
    rw [hfin] at hv
    simp only [Except.ok.injEq] at hv
    subst hv
    by_cases hc : (RenewAuthority authority [] childKey).2 +
        FEE_FUDGE * fee < avail
    · rw [if_pos hc, List.filter_append, hA]
      rw [List.filter_cons_of_neg]
      · simp
      · rw [isNonAuthGroupedFor_untagged]
        simp
    · rw [if_neg hc, hA]

theorem claim_C1_melt_amended_witness :
    List.filter (isNonAuthGroupedFor (List.replicate 20 1))
      [CTxOut.mk GROUPED_SATOSHI_AMT
        (GetScriptForDestination (CTxDestination.CKeyID [4])
          (CTokenGroupID.mk (List.replicate 20 1)) 5),
       CTxOut.mk 9990
        (GetScriptForDestination (CTxDestination.CKeyID [6]) NoGroup 0)] =
      [CTxOut.mk GROUPED_SATOSHI_AMT
        (GetScriptForDestination (CTxDestination.CKeyID [4])
          (CTokenGroupID.mk (List.replicate 20 1)) 5)] :=
  claim_C1_melt_amended (CTokenGroupID.mk (List.replicate 20 1)) 2
    (COutput.mk 10000 (CTokenGroupInfo.mk (List.replicate 20 1)
      (toInt64 (GroupAuthorityFlags.CTRL ||| GroupAuthorityFlags.MELT)))
      CTxDestination.CNoDestination)
    [COutput.mk 1 (CTokenGroupInfo.mk (List.replicate 20 1) 7)
      CTxDestination.CNoDestination]
    10 [] (CTokenGroupID.mk [2]) [3] [4] [5] [6]
    (by decide) (by decide) (by decide) (by decide) (by decide)
    [CTxOut.mk GROUPED_SATOSHI_AMT
      (GetScriptForDestination (CTxDestination.CKeyID [4])
        (CTokenGroupID.mk (List.replicate 20 1)) 5),
     CTxOut.mk 9990
      (GetScriptForDestination (CTxDestination.CKeyID [6]) NoGroup 0)]
    (by rfl)

end TokenGroupWallet
